import Mathlib

/-!
# Verification of the tinyproxy-rust core against its specification

Shallow embedding of the proxy's policy engines and connection pipeline:
strings are modelled as lists of bytes (`List Nat`, each element `< 256`;
for ASCII data the byte and the code point coincide), machine integers as
`Nat` with explicit width bounds, and fallible Rust functions as `Except`.
Side effects of the connection handler (socket writes, origin dials, the
hand-off to the bidirectional pump, statistics updates) are recorded as an
explicit event trace.
-/

namespace Tinyproxy

/-- Byte string of an ASCII Lean string literal (one byte per character). -/
def bytes (s : String) : List Nat := s.data.map Char.toNat

/-- Substring containment on byte strings, as Rust `str::contains`:
`containsSub hay needle` iff `needle` occurs contiguously in `hay`. -/
def containsSub (hay needle : List Nat) : Bool :=
  (List.range (hay.length + 1)).any (fun i => needle.isPrefixOf (hay.drop i))

/-- `containsSub` holds exactly when the needle occurs at some position. -/
theorem containsSub_iff (hay needle : List Nat) :
    containsSub hay needle = true ↔ ∃ i, needle.isPrefixOf (hay.drop i) := by
  constructor
  · intro h
    rcases List.any_eq_true.mp h with ⟨i, _, hp⟩
    exact ⟨i, hp⟩
  · rintro ⟨i, hp⟩
    apply List.any_eq_true.mpr
    by_cases hi : i ≤ hay.length
    · exact ⟨i, List.mem_range.mpr (Nat.lt_succ_of_le hi), hp⟩
    · refine ⟨hay.length, List.mem_range.mpr (Nat.lt_succ_self _), ?_⟩
      rw [List.drop_length]
      rw [List.drop_eq_nil_of_le (le_of_not_le hi)] at hp
      exact hp

/-! ## Error taxonomy (src/error.rs, `ProxyError`)

Payload strings are byte strings; the `Io` and `Tls` payloads (foreign
error types) are left abstract as a message. -/

inductive ProxyError where
  | Io (msg : List Nat)
  | Config (msg : List Nat)
  | AuthenticationFailed
  | AccessDenied (msg : List Nat)
  | InvalidRequest (msg : List Nat)
  | InvalidResponse (msg : List Nat)
  | Timeout
  | Upstream (msg : List Nat)
  | FilterBlocked (msg : List Nat)
  | DnsResolution (msg : List Nat)
  | Protocol (msg : List Nat)
  | ResourceExhausted (msg : List Nat)
  | Internal (msg : List Nat)
  deriving Repr, DecidableEq

/-! ## Access control (src/acl.rs) -/

/-- `std::net::IpAddr`: the address reduced to its fixed-width integer
(`u32::from` / `u128::from` in the source). Invariant: `V4 n` has
`n < 2 ^ 32`, `V6 n` has `n < 2 ^ 128`. -/
inductive IpAddr where
  | V4 (n : Nat)
  | V6 (n : Nat)
  deriving Repr, DecidableEq

/-- `std::net::SocketAddr` (only the parts the core consults). -/
structure SocketAddr where
  ip : IpAddr
  port : Nat
  deriving Repr, DecidableEq

/-- src/acl.rs `IpRule`. -/
inductive IpRule where
  | Single (ip : IpAddr)
  | Network (network : IpAddr) (prefix_len : Nat)
  | All
  deriving Repr, DecidableEq

/-- src/acl.rs `AccessControl`. -/
structure AccessControl where
  allow_rules : List IpRule
  deny_rules : List IpRule
  deriving Repr, DecidableEq

/-- Bitwise complement of `x` in a `w`-bit machine word (Rust `!x` on
`u32`/`u128`): all bits below `w` flipped. -/
def wordNot (w x : Nat) : Nat := (2 ^ w - 1) - x

/-- src/acl.rs `AccessControl::ip_in_network`: the network mask is
`!((1 << (width - prefix)) - 1)` with the `prefix == 0 → mask = 0`
special case; mixed address families never match. -/
def ip_in_network (ip network : IpAddr) (prefix_len : Nat) : Bool :=
  match ip, network with
  | .V4 ip_bits, .V4 net_bits =>
      let mask := if prefix_len = 0 then 0 else wordNot 32 ((1 <<< (32 - prefix_len)) - 1)
      (ip_bits &&& mask) = (net_bits &&& mask)
  | .V6 ip_bits, .V6 net_bits =>
      let mask := if prefix_len = 0 then 0 else wordNot 128 ((1 <<< (128 - prefix_len)) - 1)
      (ip_bits &&& mask) = (net_bits &&& mask)
  | _, _ => false

/-- src/acl.rs `AccessControl::matches_rule`. -/
def matches_rule (rule : IpRule) (ip : IpAddr) : Bool :=
  match rule with
  | .All => true
  | .Single rule_ip => ip = rule_ip
  | .Network network prefix_len => ip_in_network ip network prefix_len

/-- src/acl.rs `AccessControl::is_allowed`: scan the deny rules (any match
denies), then the allow rules (any match allows), else deny. -/
def is_allowed (acl : AccessControl) (addr : SocketAddr) : Bool :=
  let ip := addr.ip
  if acl.deny_rules.any (fun rule => matches_rule rule ip) then false
  else if acl.allow_rules.any (fun rule => matches_rule rule ip) then true
  else false

/-- ASCII / Latin-1 whitespace, the fragment of Rust `char::is_whitespace`
relevant to byte strings (higher Unicode whitespace is outside the
modelled byte range). -/
def isWS (c : Nat) : Bool :=
  c = 32 ∨ c = 9 ∨ c = 10 ∨ c = 11 ∨ c = 12 ∨ c = 13 ∨ c = 133 ∨ c = 160

/-- Rust `str::trim`: strip whitespace from both ends. -/
def asciiTrim (s : List Nat) : List Nat :=
  ((s.dropWhile isWS).reverse.dropWhile isWS).reverse

/-- Decimal digit value of an ASCII byte. -/
def digitVal (c : Nat) : Option Nat :=
  if 48 ≤ c ∧ c ≤ 57 then some (c - 48) else none

/-- Value of a nonempty all-digit byte string. -/
def parseDigits (ds : List Nat) : Option Nat :=
  if ds = [] then none
  else ds.foldlM (fun acc c => (digitVal c).map (fun d => acc * 10 + d)) 0

/-- Rust `str::parse::<u8>`: optional leading `+`, at least one decimal
digit, value at most 255 (overflow is an error). -/
def parse_u8 (s : List Nat) : Option Nat :=
  let s := match s with | 43 :: rest => rest | _ => s
  match parseDigits s with
  | some v => if v ≤ 255 then some v else none
  | none => none

/-- src/acl.rs `parse_ip_rule`. The textual parsing of a bare IP address
(`std::net::IpAddr::from_str`, an external stdlib routine) is abstracted
as the parameter `ipFromStr`; the error message payloads of the Rust
`Result` are dropped (the caller only logs them), so the result is an
`Option`. -/
def parse_ip_rule (ipFromStr : List Nat → Option IpAddr) (rule : List Nat) :
    Option IpRule :=
  let rule := asciiTrim rule
  if rule = bytes "all" ∨ rule = bytes "*" then some .All
  else
    match rule.findIdx? (fun c => c = 47) with
    | some slash_pos =>
        let network_str := rule.take slash_pos
        let pfx_str := rule.drop (slash_pos + 1)
        match ipFromStr network_str, parse_u8 pfx_str with
        | some network, some pfx =>
            let max_pfx : Nat := match network with | .V4 _ => 32 | .V6 _ => 128
            if pfx > max_pfx then none else some (.Network network pfx)
        | _, _ => none
    | none => (ipFromStr rule).map .Single

/-- src/acl.rs `AccessControl::new`: parse the configured allow and deny
rule strings, skipping invalid ones; if both lists come out empty,
synthesize a single permit-all allow rule. -/
def AccessControl.new (ipFromStr : List Nat → Option IpAddr)
    (allow deny : List (List Nat)) : AccessControl :=
  let allow_rules := allow.filterMap (parse_ip_rule ipFromStr)
  let deny_rules := deny.filterMap (parse_ip_rule ipFromStr)
  let allow_rules :=
    if allow_rules.isEmpty ∧ deny_rules.isEmpty then allow_rules ++ [.All]
    else allow_rules
  { allow_rules := allow_rules, deny_rules := deny_rules }

/-- Bit width of the address family. -/
def IpAddr.width : IpAddr → Nat
  | .V4 _ => 32
  | .V6 _ => 128

/-- The CIDR mask of `ip_in_network` as a standalone function. -/
def maskOf (w k : Nat) : Nat :=
  if k = 0 then 0 else wordNot w ((1 <<< (w - k)) - 1)

theorem ip_in_network_v4 (a b k : Nat) :
    ip_in_network (.V4 a) (.V4 b) k =
      decide ((a &&& maskOf 32 k) = (b &&& maskOf 32 k)) := rfl

theorem ip_in_network_v6 (a b k : Nat) :
    ip_in_network (.V6 a) (.V6 b) k =
      decide ((a &&& maskOf 128 k) = (b &&& maskOf 128 k)) := rfl

/-- Closed form of the mask: the high `k` bits of a `w`-bit word. -/
theorem maskOf_eq {w k : Nat} (hk : k ≤ w) : maskOf w k = 2 ^ w - 2 ^ (w - k) := by
  unfold maskOf wordNot
  rcases Nat.eq_zero_or_pos k with h0 | hpos
  · subst h0; simp
  · have hne : k ≠ 0 := Nat.pos_iff_ne_zero.mp hpos
    rw [if_neg hne, Nat.shiftLeft_eq, one_mul]
    have h1 : (1 : Nat) ≤ 2 ^ (w - k) := Nat.one_le_two_pow
    have h2 : 2 ^ (w - k) ≤ 2 ^ w := Nat.pow_le_pow_right (by omega) (by omega)
    omega

theorem testBit_maskOf {w k : Nat} (hk : k ≤ w) (i : Nat) :
    (maskOf w k).testBit i = (decide (w - k ≤ i) && decide (i < w)) := by
  rw [maskOf_eq hk]
  have hrw : 2 ^ w - 2 ^ (w - k) = (2 ^ k - 1) <<< (w - k) := by
    rw [Nat.shiftLeft_eq, Nat.sub_mul, one_mul, ← Nat.pow_add]
    have hkw : k + (w - k) = w := by omega
    rw [hkw]
  rw [hrw, Nat.testBit_shiftLeft, Nat.testBit_two_pow_sub_one]
  by_cases h1 : w - k ≤ i
  · simp only [ge_iff_le, h1, decide_True, Bool.true_and]
    exact decide_eq_decide.mpr (by omega)
  · simp only [ge_iff_le, h1, decide_False, Bool.false_and]

/-- A coarser prefix mask absorbs a finer one. -/
theorem maskOf_land_maskOf {w N M : Nat} (hNM : N ≤ M) (hM : M ≤ w) :
    maskOf w M &&& maskOf w N = maskOf w N := by
  apply Nat.eq_of_testBit_eq
  intro i
  rw [Nat.testBit_and, testBit_maskOf hM i, testBit_maskOf (le_trans hNM hM) i]
  by_cases h1 : w - N ≤ i <;> by_cases h2 : i < w <;>
    simp_all <;> omega

/-- Agreement under a finer mask implies agreement under a coarser one. -/
theorem land_mask_mono {w N M x y : Nat} (hNM : N ≤ M) (hM : M ≤ w)
    (h : x &&& maskOf w M = y &&& maskOf w M) :
    x &&& maskOf w N = y &&& maskOf w N := by
  calc x &&& maskOf w N
      = x &&& (maskOf w M &&& maskOf w N) := by rw [maskOf_land_maskOf hNM hM]
    _ = (x &&& maskOf w M) &&& maskOf w N := by rw [Nat.land_assoc]
    _ = (y &&& maskOf w M) &&& maskOf w N := by rw [h]
    _ = y &&& (maskOf w M &&& maskOf w N) := by rw [Nat.land_assoc]
    _ = y &&& maskOf w N := by rw [maskOf_land_maskOf hNM hM]

/-- C1: for every access-control list and client address, `is_allowed`
returns true exactly when no deny rule matches the client IP and some
allow rule matches it (deny scan first, then allow scan, default deny);
in particular an IP matched by both a deny and an allow rule is denied. -/
theorem acl_deny_wins_order (acl : AccessControl) (addr : SocketAddr) :
    (is_allowed acl addr = true ↔
      ((∀ r ∈ acl.deny_rules, matches_rule r addr.ip = false) ∧
        (∃ r ∈ acl.allow_rules, matches_rule r addr.ip = true))) ∧
    ((∃ r ∈ acl.deny_rules, matches_rule r addr.ip = true) →
      (∃ r ∈ acl.allow_rules, matches_rule r addr.ip = true) →
      is_allowed acl addr = false) := by
  have hfirst : is_allowed acl addr = true ↔
      ((∀ r ∈ acl.deny_rules, matches_rule r addr.ip = false) ∧
        (∃ r ∈ acl.allow_rules, matches_rule r addr.ip = true)) := by
    simp only [is_allowed]
    by_cases hd : acl.deny_rules.any (fun r => matches_rule r addr.ip) = true
    · rw [if_pos hd]
      constructor
      · intro h; cases h
      · rintro ⟨hall, -⟩
        rcases List.any_eq_true.mp hd with ⟨r, hr, hm⟩
        rw [hall r hr] at hm
        cases hm
    · rw [if_neg hd]
      have hdall : ∀ r ∈ acl.deny_rules, matches_rule r addr.ip = false := by
        intro r hr
        cases hmr : matches_rule r addr.ip
        · rfl
        · exact absurd (List.any_eq_true.mpr ⟨r, hr, hmr⟩) hd
      by_cases ha : acl.allow_rules.any (fun r => matches_rule r addr.ip) = true
      · rw [if_pos ha]
        exact ⟨fun _ => ⟨hdall, List.any_eq_true.mp ha⟩, fun _ => rfl⟩
      · rw [if_neg ha]
        constructor
        · intro h; cases h
        · rintro ⟨-, r, hr, hm⟩
          exact absurd (List.any_eq_true.mpr ⟨r, hr, hm⟩) ha
  refine ⟨hfirst, ?_⟩
  rintro ⟨r, hr, hm⟩ -
  cases hres : is_allowed acl addr
  · rfl
  · rcases (hfirst.mp hres).1 r hr ▸ hm with h
    cases h

/-- Witness for C1 at a concrete ACL: an address matched by both a deny
rule and an allow rule is denied. -/
theorem acl_deny_wins_order_witness :
    is_allowed ⟨[IpRule.All], [IpRule.Single (.V4 5)]⟩ ⟨.V4 5, 1234⟩ = false :=
  (acl_deny_wins_order ⟨[IpRule.All], [IpRule.Single (.V4 5)]⟩ ⟨.V4 5, 1234⟩).2
    ⟨IpRule.Single (.V4 5), by decide, by decide⟩
    ⟨IpRule.All, by decide, by decide⟩

/-- C9: CIDR matching is monotone in the prefix length — for same-family
addresses, if `ip_in_network ip net M` holds and `N ≤ M` (with `M` within
the family's bit width) then `ip_in_network ip net N` holds. -/
theorem cidr_monotone (ip net : IpAddr) (N M : Nat) (hNM : N ≤ M)
    (hM : M ≤ ip.width) (h : ip_in_network ip net M = true) :
    ip_in_network ip net N = true := by
  cases ip with
  | V4 a =>
    cases net with
    | V4 b =>
        rw [ip_in_network_v4] at h ⊢
        exact decide_eq_true (land_mask_mono hNM hM (of_decide_eq_true h))
    | V6 b => exact absurd h (by simp [ip_in_network])
  | V6 a =>
    cases net with
    | V4 b => exact absurd h (by simp [ip_in_network])
    | V6 b =>
        rw [ip_in_network_v6] at h ⊢
        exact decide_eq_true (land_mask_mono hNM hM (of_decide_eq_true h))

/-- Witness for C9: 192.168.1.100 matches its own /32, hence the /24. -/
theorem cidr_monotone_witness :
    ip_in_network (.V4 3232235876) (.V4 3232235876) 24 = true :=
  cidr_monotone (.V4 3232235876) (.V4 3232235876) 24 32
    (by decide) (by decide) (by decide)

/-- C10: when every allow string fails to parse but at least one deny
string parses, no permit-all rule is synthesized and every client address
is denied — including addresses no deny rule matches. -/
theorem acl_no_allow_rules_denies_all (ipFromStr : List Nat → Option IpAddr)
    (allow deny : List (List Nat))
    (hallow : ∀ s ∈ allow, parse_ip_rule ipFromStr s = none)
    (hdeny : ∃ s ∈ deny, parse_ip_rule ipFromStr s ≠ none) :
    (AccessControl.new ipFromStr allow deny).allow_rules = [] ∧
    ∀ addr, is_allowed (AccessControl.new ipFromStr allow deny) addr = false := by
  have hA : allow.filterMap (parse_ip_rule ipFromStr) = [] :=
    List.filterMap_eq_nil.mpr hallow
  have hD : deny.filterMap (parse_ip_rule ipFromStr) ≠ [] := by
    rcases hdeny with ⟨s, hs, hne⟩
    rcases Option.ne_none_iff_exists'.mp hne with ⟨r, hr⟩
    intro hnil
    have : r ∈ deny.filterMap (parse_ip_rule ipFromStr) :=
      List.mem_filterMap.mpr ⟨s, hs, hr⟩
    rw [hnil] at this
    cases this
  have hnew : AccessControl.new ipFromStr allow deny =
      { allow_rules := [], deny_rules := deny.filterMap (parse_ip_rule ipFromStr) } := by
    simp only [AccessControl.new, hA]
    rw [if_neg]
    rintro ⟨-, h2⟩
    exact hD (List.isEmpty_iff.mp h2)
  refine ⟨by rw [hnew], ?_⟩
  intro addr
  rw [hnew]
  simp only [is_allowed, List.any_nil]
  split <;> rfl

/-- Witness for C10: unparsable allow rule, one valid deny rule; an
address matching no deny rule is still denied. -/
theorem acl_no_allow_rules_denies_all_witness :
    is_allowed (AccessControl.new (fun _ => none) [bytes "bogus"] [bytes "all"])
      ⟨.V4 7, 80⟩ = false :=
  (acl_no_allow_rules_denies_all (fun _ => none) [bytes "bogus"] [bytes "all"]
      (by decide) ⟨bytes "all", by decide, by decide⟩).2 ⟨.V4 7, 80⟩

/-! ## HTTP request record (src/utils.rs `HttpRequest`) and
basic authentication (src/auth.rs) -/

/-- src/utils.rs `HttpRequest`. The header map is modelled as an
association list with last-write-wins insertion. -/
structure HttpRequest where
  method : List Nat
  uri : List Nat
  version : List Nat
  headers : List (List Nat × List Nat)
  deriving Repr, DecidableEq

/-- `HashMap::get` on the modelled header map. -/
def headersGet (headers : List (List Nat × List Nat)) (name : List Nat) :
    Option (List Nat) :=
  (headers.find? (fun kv => kv.1 = name)).map Prod.snd

/-- src/config.rs `BasicAuthConfig`. -/
structure BasicAuthConfig where
  username : List Nat
  password : List Nat
  realm : List Nat
  deriving Repr, DecidableEq

/-- Standard base64 alphabet: the ASCII code of the character encoding the
sextet `n` (total on `Nat`; used with `n < 64`). -/
def b64Char (n : Nat) : Nat :=
  if n < 26 then 65 + n
  else if n < 52 then 97 + (n - 26)
  else if n < 62 then 48 + (n - 52)
  else if n = 62 then 43
  else 47

/-- Inverse of the standard base64 alphabet. -/
def b64Val (c : Nat) : Option Nat :=
  if 65 ≤ c ∧ c ≤ 90 then some (c - 65)
  else if 97 ≤ c ∧ c ≤ 122 then some (26 + (c - 97))
  else if 48 ≤ c ∧ c ≤ 57 then some (52 + (c - 48))
  else if c = 43 then some 62
  else if c = 47 then some 63
  else none

/-- Padded standard base64 encoding of a byte string (the base64 crate's
`general_purpose::STANDARD.encode`): three bytes become four alphabet
characters, with `=` (61) padding for a trailing group of one or two
bytes. -/
def b64Encode : List Nat → List Nat
  | [] => []
  | [a] => [b64Char (a / 4), b64Char (a % 4 * 16), 61, 61]
  | [a, b] => [b64Char (a / 4), b64Char (a % 4 * 16 + b / 16), b64Char (b % 16 * 4), 61]
  | a :: b :: c :: rest =>
      b64Char (a / 4) :: b64Char (a % 4 * 16 + b / 16) ::
      b64Char (b % 16 * 4 + c / 64) :: b64Char (c % 64) :: b64Encode rest

/-- Strict padded standard base64 decoding
(`general_purpose::STANDARD.decode`): input must be a sequence of
four-character groups, `=` padding only at the end. -/
def b64Decode : List Nat → Option (List Nat)
  | [] => some []
  | c1 :: c2 :: c3 :: c4 :: rest =>
      match b64Val c1, b64Val c2 with
      | some v1, some v2 =>
          if c3 = 61 then
            if c4 = 61 ∧ rest = [] then some [v1 * 4 + v2 / 16] else none
          else
            match b64Val c3 with
            | some v3 =>
                if c4 = 61 then
                  if rest = [] then some [v1 * 4 + v2 / 16, v2 % 16 * 16 + v3 / 4]
                  else none
                else
                  match b64Val c4, b64Decode rest with
                  | some v4, some tail =>
                      some ((v1 * 4 + v2 / 16) :: (v2 % 16 * 16 + v3 / 4) ::
                            (v3 % 4 * 64 + v4) :: tail)
                  | _, _ => none
            | none => none
      | _, _ => none
  | _ => none

theorem b64Val_b64Char : ∀ n < 64, b64Val (b64Char n) = some n := by decide

theorem b64Char_ne_61 (n : Nat) : b64Char n ≠ 61 := by
  unfold b64Char
  split_ifs <;> omega

/-- Decoding inverts encoding on byte strings. -/
theorem b64_roundtrip : ∀ s : List Nat, (∀ b ∈ s, b < 256) →
    b64Decode (b64Encode s) = some s
  | [], _ => rfl
  | [a], h => by
      have ha : a < 256 := h a (by simp)
      have h1 : b64Val (b64Char (a / 4)) = some (a / 4) := b64Val_b64Char _ (by omega)
      have h2 : b64Val (b64Char (a % 4 * 16)) = some (a % 4 * 16) :=
        b64Val_b64Char _ (by omega)
      simp [b64Encode, b64Decode, h1, h2]
      all_goals omega
  | [a, b], h => by
      have ha : a < 256 := h a (by simp)
      have hb : b < 256 := h b (by simp)
      have h1 : b64Val (b64Char (a / 4)) = some (a / 4) := b64Val_b64Char _ (by omega)
      have h2 : b64Val (b64Char (a % 4 * 16 + b / 16)) = some (a % 4 * 16 + b / 16) :=
        b64Val_b64Char _ (by omega)
      have h3 : b64Val (b64Char (b % 16 * 4)) = some (b % 16 * 4) :=
        b64Val_b64Char _ (by omega)
      have hne : b64Char (b % 16 * 4) ≠ 61 := b64Char_ne_61 _
      simp [b64Encode, b64Decode, h1, h2, h3, hne]
      all_goals omega
  | a :: b :: c :: rest, h => by
      have ha : a < 256 := h a (by simp)
      have hb : b < 256 := h b (by simp)
      have hc : c < 256 := h c (by simp)
      have ih := b64_roundtrip rest (fun x hx => h x (by simp [hx]))
      have h1 : b64Val (b64Char (a / 4)) = some (a / 4) := b64Val_b64Char _ (by omega)
      have h2 : b64Val (b64Char (a % 4 * 16 + b / 16)) = some (a % 4 * 16 + b / 16) :=
        b64Val_b64Char _ (by omega)
      have h3 : b64Val (b64Char (b % 16 * 4 + c / 64)) = some (b % 16 * 4 + c / 64) :=
        b64Val_b64Char _ (by omega)
      have h4 : b64Val (b64Char (c % 64)) = some (c % 64) := b64Val_b64Char _ (by omega)
      have hne3 : b64Char (b % 16 * 4 + c / 64) ≠ 61 := b64Char_ne_61 _
      have hne4 : b64Char (c % 64) ≠ 61 := b64Char_ne_61 _
      match rest with
      | [] =>
          simp [b64Encode, b64Decode, h1, h2, h3, h4, hne3, hne4]
          all_goals omega
      | r :: rs =>
          simp only [b64Encode] at ih ⊢
          simp [b64Decode, h1, h2, h3, h4, hne3, hne4, ih]
          all_goals omega

/-- Byte in the UTF-8 continuation range `0x80..=0xBF`. -/
def isCont (c : Nat) : Bool := decide (128 ≤ c ∧ c ≤ 191)

/-- UTF-8 validity of a byte string, as checked by Rust
`String::from_utf8` (stdlib validation table). -/
def utf8Valid : List Nat → Bool
  | [] => true
  | c :: rest =>
    if c ≤ 127 then utf8Valid rest
    else if 194 ≤ c ∧ c ≤ 223 then
      match rest with
      | c1 :: rest2 => isCont c1 && utf8Valid rest2
      | [] => false
    else if c = 224 then
      match rest with
      | c1 :: c2 :: rest2 => decide (160 ≤ c1 ∧ c1 ≤ 191) && isCont c2 && utf8Valid rest2
      | _ => false
    else if (225 ≤ c ∧ c ≤ 236) ∨ c = 238 ∨ c = 239 then
      match rest with
      | c1 :: c2 :: rest2 => isCont c1 && isCont c2 && utf8Valid rest2
      | _ => false
    else if c = 237 then
      match rest with
      | c1 :: c2 :: rest2 => decide (128 ≤ c1 ∧ c1 ≤ 159) && isCont c2 && utf8Valid rest2
      | _ => false
    else if c = 240 then
      match rest with
      | c1 :: c2 :: c3 :: rest2 =>
          decide (144 ≤ c1 ∧ c1 ≤ 191) && isCont c2 && isCont c3 && utf8Valid rest2
      | _ => false
    else if 241 ≤ c ∧ c ≤ 243 then
      match rest with
      | c1 :: c2 :: c3 :: rest2 => isCont c1 && isCont c2 && isCont c3 && utf8Valid rest2
      | _ => false
    else if c = 244 then
      match rest with
      | c1 :: c2 :: c3 :: rest2 =>
          decide (128 ≤ c1 ∧ c1 ≤ 143) && isCont c2 && isCont c3 && utf8Valid rest2
      | _ => false
    else false

/-- Rust `str::splitn(2, sep)` restricted to the case the caller accepts:
`some (before, after)` when `sep` occurs (split at the FIRST occurrence),
`none` when it yields fewer than two parts. -/
def splitFirst (sep : Nat) : List Nat → Option (List Nat × List Nat)
  | [] => none
  | c :: cs =>
      if c = sep then some ([], cs)
      else
        match splitFirst sep cs with
        | some (a, b) => some (c :: a, b)
        | none => none

theorem splitFirst_append (sep : Nat) (u p : List Nat) (hu : sep ∉ u) :
    splitFirst sep (u ++ sep :: p) = some (u, p) := by
  induction u with
  | nil => simp [splitFirst]
  | cons c cs ih =>
      have hc : c ≠ sep := fun h => hu (h ▸ List.mem_cons_self c cs)
      have ih2 := ih (fun h => hu (List.mem_cons_of_mem c h))
      simp [splitFirst, if_neg hc, ih2]

theorem splitFirst_spec (sep : Nat) : ∀ (s a b : List Nat),
    splitFirst sep s = some (a, b) → s = a ++ sep :: b
  | [], a, b => by intro h; cases h
  | c :: cs, a, b => by
      intro h
      simp only [splitFirst] at h
      by_cases hc : c = sep
      · rw [if_pos hc] at h
        cases h
        simp [hc]
      · rw [if_neg hc] at h
        cases hrec : splitFirst sep cs with
        | none => rw [hrec] at h; cases h
        | some ab =>
            obtain ⟨a', b'⟩ := ab
            rw [hrec] at h
            simp only [Option.some.injEq, Prod.mk.injEq] at h
            obtain ⟨ha, hb⟩ := h
            subst ha
            subst hb
            have hcs := splitFirst_spec sep cs a' b' hrec
            simp [hcs]

theorem splitFirst_isSome_of_mem (sep : Nat) : ∀ s : List Nat, sep ∈ s →
    ∃ a b, splitFirst sep s = some (a, b)
  | [], h => absurd h (List.not_mem_nil sep)
  | c :: cs, h => by
      by_cases hc : c = sep
      · exact ⟨[], cs, by simp [splitFirst, hc]⟩
      · have hmem : sep ∈ cs := by
          rcases List.mem_cons.mp h with h1 | h1
          · exact absurd h1.symm hc
          · exact h1
        obtain ⟨a, b, hab⟩ := splitFirst_isSome_of_mem sep cs hmem
        exact ⟨c :: a, b, by simp [splitFirst, if_neg hc, hab]⟩

/-- src/auth.rs `Authenticator::authenticate`. The `Authenticator` holds
`auth_config = config.basic_auth`; `None` permits everything. The header
must start with the literal `Basic `; its remainder is base64-decoded and
must be valid UTF-8; the decoded string is split at the first `:` and the
two parts are compared with the configured credentials. -/
def authenticate (auth_config : Option BasicAuthConfig) (request : HttpRequest) :
    Except ProxyError Bool :=
  match auth_config with
  | none => .ok true
  | some cfg =>
    match headersGet request.headers (bytes "proxy-authorization") with
    | none => .ok false
    | some auth_header =>
      if (bytes "Basic ").isPrefixOf auth_header then
        let encoded_credentials := auth_header.drop 6
        match b64Decode encoded_credentials with
        | none => .error .AuthenticationFailed
        | some decoded_credentials =>
          if utf8Valid decoded_credentials then
            match splitFirst 58 decoded_credentials with
            | none => .error .AuthenticationFailed
            | some (username, password) =>
                .ok (decide (username = cfg.username ∧ password = cfg.password))
          else .error .AuthenticationFailed
      else .error .AuthenticationFailed

/-- The header value `Basic base64(u:p)` of the claim. -/
def mkAuthHeader (u p : List Nat) : List Nat :=
  bytes "Basic " ++ b64Encode (u ++ 58 :: p)

/-- A request carrying exactly one `proxy-authorization` header. -/
def authRequest (header : List Nat) : HttpRequest :=
  ⟨bytes "GET", bytes "http://x/", bytes "1.1",
    [(bytes "proxy-authorization", header)]⟩

theorem isPrefixOf_append_self (l t : List Nat) : l.isPrefixOf (l ++ t) = true := by
  simp

/-- Evaluation of `authenticate` on a request whose sole header is a
well-formed `Basic` credential: everything up to the UTF-8 check and the
colon split reduces. -/
theorem authenticate_mkAuthHeader (cfg : BasicAuthConfig) (x y : List Nat)
    (hx : ∀ b ∈ x, b < 256) (hy : ∀ b ∈ y, b < 256) :
    authenticate (some cfg) (authRequest (mkAuthHeader x y)) =
      if utf8Valid (x ++ 58 :: y) then
        match splitFirst 58 (x ++ 58 :: y) with
        | none => Except.error ProxyError.AuthenticationFailed
        | some (username, password) =>
            Except.ok (decide (username = cfg.username ∧ password = cfg.password))
      else Except.error ProxyError.AuthenticationFailed := by
  have hbound : ∀ b ∈ x ++ 58 :: y, b < 256 := by
    intro b hb
    rcases List.mem_append.mp hb with h1 | h1
    · exact hx b h1
    · rcases List.mem_cons.mp h1 with h2 | h2
      · omega
      · exact hy b h2
  have hget : headersGet (authRequest (mkAuthHeader x y)).headers
      (bytes "proxy-authorization") = some (mkAuthHeader x y) := by
    simp [headersGet, authRequest, List.find?]
  have hdrop : (mkAuthHeader x y).drop 6 = b64Encode (x ++ 58 :: y) := by
    have h6 : (bytes "Basic ").length = 6 := rfl
    rw [mkAuthHeader, ← h6, List.drop_left]
  have hpre : (bytes "Basic ").isPrefixOf (mkAuthHeader x y) = true := by
    rw [mkAuthHeader]; exact isPrefixOf_append_self _ _
  simp only [authenticate, hget, hpre, eq_self_iff_true, if_true, hdrop,
    b64_roundtrip (x ++ 58 :: y) hbound]

/-- C3 as written is FALSE on the code at a concrete input, in two ways.
With credentials `(u, p) = ("a:b", "c")` the correctly built header
`Basic base64("a:b:c")` yields `Ok(false)` (the decoded string is split at
its FIRST colon, producing `("a", "b:c") ≠ ("a:b", "c")`), not true. And
with credentials `("a", "b")`, flipping the top bit of `u = "a"` (0x61 →
0xE1) makes the decoded credential invalid UTF-8, so `authenticate`
returns the hard error `AuthenticationFailed` rather than false. -/
theorem auth_roundtrip_counterexample :
    authenticate (some ⟨bytes "a:b", bytes "c", bytes "Tinyproxy"⟩)
      (authRequest (mkAuthHeader (bytes "a:b") (bytes "c"))) = .ok false ∧
    authenticate (some ⟨bytes "a", bytes "b", bytes "Tinyproxy"⟩)
      (authRequest (mkAuthHeader [225] (bytes "b"))) =
        .error .AuthenticationFailed := by
  constructor
  · rfl
  · rfl

/-- C3 (amended): with Basic credentials `(u, p)` configured where the
username contains no colon byte, `authenticate` returns `Ok(true)` for a
request whose proxy-authorization header is `Basic base64(u:p)`; for a
header built the same way from any distinct pair with the byte lengths of
`u` and `p` (in particular any pair obtained by flipping at least one bit
of `u` or `p`), `authenticate` never returns true — it returns `Ok(false)`
when the altered credential is valid UTF-8 and the hard error
`AuthenticationFailed` otherwise. -/
theorem auth_roundtrip (u p realm : List Nat)
    (hu : ∀ b ∈ u, b < 256) (hp : ∀ b ∈ p, b < 256)
    (hcolon : 58 ∉ u) (hutf : utf8Valid (u ++ 58 :: p) = true) :
    authenticate (some ⟨u, p, realm⟩) (authRequest (mkAuthHeader u p)) = .ok true ∧
    ∀ u' p' : List Nat, u'.length = u.length → p'.length = p.length →
      (∀ b ∈ u', b < 256) → (∀ b ∈ p', b < 256) → ¬(u' = u ∧ p' = p) →
      authenticate (some ⟨u, p, realm⟩) (authRequest (mkAuthHeader u' p')) =
        (if utf8Valid (u' ++ 58 :: p') = true then .ok false
         else .error .AuthenticationFailed) := by
  constructor
  · rw [authenticate_mkAuthHeader ⟨u, p, realm⟩ u p hu hp, if_pos hutf,
      splitFirst_append 58 u p hcolon]
    simp
  · intro u' p' hlu hlp hu' hp' hne
    rw [authenticate_mkAuthHeader ⟨u, p, realm⟩ u' p' hu' hp']
    by_cases hv : utf8Valid (u' ++ 58 :: p') = true
    · rw [if_pos hv, if_pos hv]
      have hmem : 58 ∈ u' ++ 58 :: p' :=
        List.mem_append.mpr (Or.inr (List.mem_cons_self _ _))
      obtain ⟨a, b, hab⟩ := splitFirst_isSome_of_mem 58 (u' ++ 58 :: p') hmem
      rw [hab]
      have hnot : ¬(a = u ∧ b = p) := by
        rintro ⟨hau, hbp⟩
        have hstruct := splitFirst_spec 58 (u' ++ 58 :: p') a b hab
        rw [hau, hbp] at hstruct
        have hlen : u'.length = u.length := hlu
        obtain ⟨h1, h2⟩ := List.append_inj hstruct.symm (by omega)
        cases h2
        exact hne ⟨h1.symm ▸ rfl, rfl⟩
      simp only [decide_eq_false hnot]
    · rw [if_neg hv, if_neg hv]

/-- Witness for the amended C3 at credentials `("alice", "secret")` and
the single-bit flip `"alicd"` of the username. -/
theorem auth_roundtrip_witness :
    authenticate (some ⟨bytes "alice", bytes "secret", bytes "Tinyproxy"⟩)
      (authRequest (mkAuthHeader (bytes "alice") (bytes "secret"))) = .ok true ∧
    authenticate (some ⟨bytes "alice", bytes "secret", bytes "Tinyproxy"⟩)
      (authRequest (mkAuthHeader (bytes "alicd") (bytes "secret"))) = .ok false := by
  have h := auth_roundtrip (bytes "alice") (bytes "secret") (bytes "Tinyproxy")
    (by decide) (by decide) (by decide) (by decide)
  refine ⟨h.1, ?_⟩
  rw [h.2 (bytes "alicd") (bytes "secret") (by decide) (by decide)
    (by decide) (by decide) (by decide)]
  rw [if_pos (by decide)]

/-! ## HTTP request parser (src/utils.rs `parse_http_request`)

The Rust code first decodes the byte slice with `String::from_utf8_lossy`;
the model treats the byte stream as the resulting sequence of code points,
which is exact for ASCII data (HTTP request heads are ASCII). -/

/-- Split a byte string at every newline (10), keeping the final
(possibly empty) segment: `n` newlines yield `n + 1` parts. -/
def splitNL : List Nat → List (List Nat)
  | [] => [[]]
  | c :: rest =>
      if c = 10 then [] :: splitNL rest
      else
        match splitNL rest with
        | [] => [[c]]
        | l :: ls => (c :: l) :: ls

/-- Strip one trailing carriage return (13), as Rust `lines` does for a
`\r\n` line ending. -/
def stripCR (l : List Nat) : List Nat :=
  if l.getLast? = some 13 then l.dropLast else l

/-- Rust `str::lines`: split at `\n`, strip a trailing `\r` from each
terminated line, and drop the final empty segment produced by a trailing
newline (a last line without a newline keeps any trailing `\r`). -/
def rustLines (s : List Nat) : List (List Nat) :=
  let ps := splitNL s
  match ps.getLast? with
  | some [] => ps.dropLast.map stripCR
  | _ => ps.dropLast.map stripCR ++ [ps.getLastD []]

/-- Rust `str::split_whitespace` (accumulator holds the current token in
reverse): maximal runs of non-whitespace bytes, no empty tokens. -/
def splitWSAux : List Nat → List Nat → List (List Nat)
  | [], acc => if acc.isEmpty then [] else [acc.reverse]
  | c :: rest, acc =>
      if isWS c then
        if acc.isEmpty then splitWSAux rest []
        else acc.reverse :: splitWSAux rest []
      else splitWSAux rest (c :: acc)

def splitWS (s : List Nat) : List (List Nat) := splitWSAux s []

/-- ASCII fragment of Rust `str::to_lowercase`. -/
def asciiLower (s : List Nat) : List Nat :=
  s.map (fun c => if 65 ≤ c ∧ c ≤ 90 then c + 32 else c)

/-- Rust `str::strip_prefix`. -/
def stripPfx (pre s : List Nat) : Option (List Nat) :=
  if pre.isPrefixOf s then some (s.drop pre.length) else none

/-- `HashMap::insert` on the modelled header map: last write wins. -/
def insertHeader (hs : List (List Nat × List Nat)) (k v : List Nat) :
    List (List Nat × List Nat) :=
  hs.filter (fun kv => decide (kv.1 ≠ k)) ++ [(k, v)]

/-- The header loop of src/utils.rs `parse_http_request`: lines up to the
first empty line; split at the FIRST `:` (58), name lowercased and
trimmed, value trimmed, later occurrences overwriting earlier ones;
lines without a colon are silently skipped. -/
def parseHeaders : List (List Nat) → List (List Nat × List Nat) →
    List (List Nat × List Nat)
  | [], acc => acc
  | line :: rest, acc =>
      if line.isEmpty then acc
      else
        match line.findIdx? (fun c => c = 58) with
        | some colon_pos =>
            let name := asciiLower (asciiTrim (line.take colon_pos))
            let value := asciiTrim (line.drop (colon_pos + 1))
            parseHeaders rest (insertHeader acc name value)
        | none => parseHeaders rest acc

/-- src/utils.rs `parse_http_request`. -/
def parse_http_request (data : List Nat) : Except ProxyError HttpRequest :=
  match rustLines data with
  | [] => .error (.InvalidRequest (bytes "Empty request"))
  | line0 :: rest =>
      match splitWS line0 with
      | [method, uri, version_tok] =>
          .ok ⟨method, uri,
               (stripPfx (bytes "HTTP/") version_tok).getD (bytes "1.1"),
               parseHeaders rest []⟩
      | _ => .error (.InvalidRequest (bytes "Invalid request line format"))

/-- C8 as written is FALSE on the code at concrete inputs, in two ways.
On `"\nGET / HTTP/1.1\r\n\r\n"` the first NON-empty line is a well-formed
request line, yet the parser fails: it uses `lines[0]`, the literal first
line, which is empty here. And on `"GET / XHTTP/1.1\r\n\r\n"` the third
token `XHTTP/1.1` has no `HTTP/` prefix, yet the stored version is the
literal `1.1`, not the token itself. -/
theorem parser_request_line_counterexample :
    parse_http_request (bytes "\nGET / HTTP/1.1\r\n\r\n") =
      .error (.InvalidRequest (bytes "Invalid request line format")) ∧
    parse_http_request (bytes "GET / XHTTP/1.1\r\n\r\n") =
      .ok ⟨bytes "GET", bytes "/", bytes "1.1", []⟩ := by
  constructor
  · rfl
  · rfl

/-- C8 (amended): the parser takes the FIRST line of the input (empty or
not) as the request line; with no lines at all it fails with
`InvalidRequest("Empty request")`; parsing succeeds exactly when the first
line splits on whitespace into three tokens `(method, uri, version)` and
fails with `InvalidRequest("Invalid request line format")` otherwise; the
stored version is the third token with its `HTTP/` prefix removed when
that prefix is present, and the literal `1.1` otherwise. -/
theorem parser_request_line (data : List Nat) :
    (rustLines data = [] →
      parse_http_request data = .error (.InvalidRequest (bytes "Empty request"))) ∧
    (∀ l ls, rustLines data = l :: ls →
      (∀ m u v, splitWS l = [m, u, v] →
        parse_http_request data =
          .ok ⟨m, u, (stripPfx (bytes "HTTP/") v).getD (bytes "1.1"),
               parseHeaders ls []⟩) ∧
      ((splitWS l).length ≠ 3 →
        parse_http_request data =
          .error (.InvalidRequest (bytes "Invalid request line format")))) := by
  constructor
  · intro h
    simp only [parse_http_request, h]
  · intro l ls h
    constructor
    · intro m u v hsw
      simp only [parse_http_request, h, hsw]
    · intro hlen
      simp only [parse_http_request, h]
      rcases hsw : splitWS l with _ | ⟨m, _ | ⟨u, _ | ⟨v, _ | ⟨w, t⟩⟩⟩⟩ <;>
        first
          | rfl
          | (exact absurd (by simp [hsw]) hlen)

/-- Witness for the amended C8 on a concrete request line. -/
theorem parser_request_line_witness :
    parse_http_request (bytes "GET / HTTP/1.1\r\n\r\n") =
      .ok ⟨bytes "GET", bytes "/", bytes "1.1", []⟩ :=
  ((parser_request_line (bytes "GET / HTTP/1.1\r\n\r\n")).2
      (bytes "GET / HTTP/1.1") [[]] (by rfl)).1
    (bytes "GET") (bytes "/") (bytes "HTTP/1.1") (by rfl)

/-! ## Filter engine (src/filter.rs) -/

/-- Abstract view of the external url crate's
`Url::parse(url).ok().map(|u| u.host_str())`: `none` when the URL fails to
parse, `some none` when it parses without a host, `some (some h)` when it
parses with host `h`. -/
def UrlHostOracle := List Nat → Option (Option (List Nat))

/-- src/filter.rs `FilterRule`. A compiled regex is abstracted by its
`is_match` semantics, a boolean matcher. -/
inductive FilterRule where
  | Exact (pattern : List Nat)
  | Regex (matcher : List Nat → Bool)
  | Domain (domain : List Nat)

/-- src/filter.rs `Filter` (the rule list is built once at startup from
the filter file; the file-reading construction is I/O and is not under
verification — the structure state is taken as given). -/
structure Filter where
  enabled : Bool
  rules : List FilterRule
  case_sensitive : Bool
  extended : Bool

/-- src/filter.rs `Filter::matches_rule`. -/
def Filter.matches_rule (urlHost : UrlHostOracle) (f : Filter)
    (rule : FilterRule) (url : List Nat) : Bool :=
  match rule with
  | .Exact pattern => containsSub url pattern
  | .Regex matcher => matcher url
  | .Domain domain =>
      match urlHost url with
      | some (some host) =>
          let host := if f.case_sensitive then host else asciiLower host
          match domain with
          | 46 :: domain_tail => domain.isSuffixOf host || decide (host = domain_tail)
          | _ => decide (host = domain)
      | some none => false
      | none => containsSub url domain

/-- src/filter.rs `Filter::is_allowed` (the Rust function returns
`Ok(bool)` on every path, so the model returns the bool directly): `true`
when filtering is disabled; otherwise scan the rules in order against the
case-normalized URL and block on the first match. -/
def Filter.is_allowed (urlHost : UrlHostOracle) (f : Filter) (url : List Nat) :
    Bool :=
  if !f.enabled then true
  else
    let url_to_check := if f.case_sensitive then url else asciiLower url
    if f.rules.any (fun rule => f.matches_rule urlHost rule url_to_check) then false
    else true

/-- C7: `Filter.is_allowed` permits everything when filtering is
disabled; when enabled it returns false exactly when some rule in the
list matches the case-normalized URL — substring containment for
substring (`Exact`) rules, the matcher's anywhere-match for regex rules,
and for domain rules the host test with substring fallback on URL parse
failure — and appending rules can never turn a blocked URL into an
allowed one. -/
theorem filter_block_semantics (urlHost : UrlHostOracle) (f : Filter)
    (url : List Nat) :
    (f.enabled = false → Filter.is_allowed urlHost f url = true) ∧
    (f.enabled = true →
      (Filter.is_allowed urlHost f url = false ↔
        ∃ rule ∈ f.rules,
          f.matches_rule urlHost rule
            (if f.case_sensitive then url else asciiLower url) = true)) ∧
    (∀ pattern u, f.matches_rule urlHost (.Exact pattern) u = containsSub u pattern) ∧
    (∀ matcher u, f.matches_rule urlHost (.Regex matcher) u = matcher u) ∧
    (∀ domain u, urlHost u = none →
      f.matches_rule urlHost (.Domain domain) u = containsSub u domain) ∧
    (∀ extra, Filter.is_allowed urlHost f url = false →
      Filter.is_allowed urlHost { f with rules := f.rules ++ extra } url = false) := by
  refine ⟨?_, ?_, ?_, ?_, ?_, ?_⟩
  · intro h
    simp [Filter.is_allowed, h]
  · intro h
    simp only [Filter.is_allowed, h, Bool.not_true, Bool.false_eq_true, if_false]
    by_cases ha : f.rules.any (fun rule => f.matches_rule urlHost rule
        (if f.case_sensitive then url else asciiLower url)) = true
    · rw [if_pos ha]
      exact ⟨fun _ => List.any_eq_true.mp ha, fun _ => rfl⟩
    · rw [if_neg ha]
      constructor
      · intro hcontr; cases hcontr
      · intro hex
        exact absurd (List.any_eq_true.mpr hex) ha
  · intro pattern u; rfl
  · intro matcher u; rfl
  · intro domain u h
    simp [Filter.matches_rule, h]
  · intro extra hblocked
    by_cases he : f.enabled
    · simp only [Filter.is_allowed, he, Bool.not_true, Bool.false_eq_true, if_false]
        at hblocked ⊢
      by_cases ha : f.rules.any (fun rule => f.matches_rule urlHost rule
          (if f.case_sensitive then url else asciiLower url)) = true
      · rcases List.any_eq_true.mp ha with ⟨r, hr, hm⟩
        rw [if_pos]
        apply List.any_eq_true.mpr
        exact ⟨r, List.mem_append.mpr (Or.inl hr), hm⟩
      · rw [if_neg ha] at hblocked
        cases hblocked
    · have : f.enabled = false := by simpa using he
      simp [Filter.is_allowed, this] at hblocked

/-- Witness for C7 at a concrete filter: a substring rule blocks a URL
containing it. -/
theorem filter_block_semantics_witness :
    Filter.is_allowed (fun _ => none)
      ⟨true, [.Exact (bytes "ads")], false, false⟩
      (bytes "http://ads.example.com/") = false :=
  ((filter_block_semantics (fun _ => none)
      ⟨true, [.Exact (bytes "ads")], false, false⟩
      (bytes "http://ads.example.com/")).2.1 rfl).mpr
    ⟨.Exact (bytes "ads"), List.mem_singleton.mpr rfl, by decide⟩

/-! ## Header reading (src/connection.rs `ConnectionHandler::handle`) -/

/-- src/connection.rs `find_end_of_headers`: scan indices
`0 .. buffer.len().saturating_sub(3)` in order and return the first `i`
whose four-byte window equals CRLF CRLF. -/
def find_end_of_headers (buffer : List Nat) : Option Nat :=
  (List.range (buffer.length - 3)).find?
    (fun i => decide ((buffer.drop i).take 4 = [13, 10, 13, 10]))

/-- Outcome of the header-reading loop of `ConnectionHandler::handle`.
`request` carries the bytes handed to the parser and the preserved body
prefix; `starved` marks a modelled chunk sequence that ran out while the
code would still be reading. -/
inductive ReadOutcome where
  | cleanClose
  | request (request_data remaining : List Nat)
  | fail (e : ProxyError)
  | starved
  deriving Repr, DecidableEq

/-- The read loop of src/connection.rs `ConnectionHandler::handle`
(lines 67–100), driven by the sequence of chunks successive
`read_buf` calls deliver (`[]` models a zero-length read): append the
chunk, split at the header terminator if present, otherwise fail once the
buffer exceeds 16384 bytes; a zero-length first read is a clean close and
a later one fails with `Incomplete request`. I/O and timeout errors of
`read_buf` abort the loop before any of the modelled outcomes and are not
modelled. -/
def readHeadersLoop (buffer : List Nat) (total_read : Nat) :
    List (List Nat) → ReadOutcome
  | [] => .starved
  | chunk :: rest =>
      if chunk.isEmpty then
        if total_read = 0 then .cleanClose
        else .fail (.InvalidRequest (bytes "Incomplete request"))
      else
        let buffer2 := buffer ++ chunk
        let total_read2 := total_read + chunk.length
        match find_end_of_headers buffer2 with
        | some end_of_headers =>
            .request (buffer2.take (end_of_headers + 4))
                     (buffer2.drop (end_of_headers + 4))
        | none =>
            if buffer2.length > 16384 then
              .fail (.InvalidRequest (bytes "Request headers too large"))
            else readHeadersLoop buffer2 total_read2 rest

theorem find?_range_eq_some {p : Nat → Bool} {n i : Nat}
    (hi : i < n) (hp : p i = true) (hmin : ∀ j < i, p j = false) :
    (List.range n).find? p = some i := by
  induction n with
  | zero => omega
  | succ m ih =>
      rw [List.range_succ, List.find?_append]
      by_cases him : i < m
      · rw [ih him]; rfl
      · have hie : i = m := by omega
        subst hie
        have hnone : (List.range i).find? p = none :=
          List.find?_eq_none.mpr (fun j hj hpj => by
            rw [hmin j (List.mem_range.mp hj)] at hpj; cases hpj)
        rw [hnone]
        simp [hp]

theorem window_eq_length {l : List Nat} {i : Nat}
    (h : (l.drop i).take 4 = [13, 10, 13, 10]) : i + 4 ≤ l.length := by
  have hlen := congrArg List.length h
  simp only [List.length_take, List.length_drop, List.length_cons,
    List.length_nil] at hlen
  omega

/-- C5: when the four-byte CRLF CRLF sequence occurs in the buffer with
its first occurrence at `i`, `find_end_of_headers` returns `i` and the
read loop splits there: the bytes up to and including the terminator are
handed to the parser, and exactly the bytes after it are preserved as the
body prefix (the two parts reassemble the buffer and the parsed part ends
with the terminator). -/
theorem header_split_first (buffer : List Nat) (i : Nat)
    (hmatch : (buffer.drop i).take 4 = [13, 10, 13, 10])
    (hfirst : ∀ j < i, (buffer.drop j).take 4 ≠ [13, 10, 13, 10]) :
    find_end_of_headers buffer = some i ∧
    readHeadersLoop [] 0 [buffer] =
      .request (buffer.take (i + 4)) (buffer.drop (i + 4)) ∧
    buffer.take (i + 4) ++ buffer.drop (i + 4) = buffer ∧
    (buffer.take (i + 4)).drop i = [13, 10, 13, 10] := by
  have hbound := window_eq_length hmatch
  have hfind : find_end_of_headers buffer = some i := by
    apply find?_range_eq_some
    · omega
    · exact decide_eq_true hmatch
    · intro j hj
      exact decide_eq_false (hfirst j hj)
  refine ⟨hfind, ?_, List.take_append_drop _ _, ?_⟩
  · have hne : buffer.isEmpty = false := by
      cases buffer
      · simp at hbound
      · rfl
    simp only [readHeadersLoop, hne, Bool.false_eq_true, if_false,
      List.nil_append, hfind]
  · rw [← List.take_drop]
    exact hmatch

/-- Witness for C5: a concrete request head followed by body bytes is
split exactly at the first CRLF CRLF. -/
theorem header_split_first_witness :
    readHeadersLoop [] 0 [bytes "GET / HTTP/1.1\r\n\r\nBODY"] =
      .request (bytes "GET / HTTP/1.1\r\n\r\n") (bytes "BODY") := by
  have h := header_split_first (bytes "GET / HTTP/1.1\r\n\r\nBODY") 14
    (by decide) (by decide)
  rw [h.2.1]
  rfl

/-- A CRLF CRLF window found in a prefix is a window of the full list. -/
theorem window_of_take {full : List Nat} {k j : Nat}
    (h : ((full.take k).drop j).take 4 = [13, 10, 13, 10]) :
    (full.drop j).take 4 = [13, 10, 13, 10] := by
  have hb := window_eq_length h
  rw [List.length_take] at hb
  have hsplit : k = j + (k - j) := by omega
  rw [hsplit, ← List.take_drop, List.take_take] at h
  have hmin : min 4 (k - j) = 4 := by omega
  rw [hmin] at h
  exact h

theorem find_none_of_no_window {buffer : List Nat}
    (h : ∀ j, (buffer.drop j).take 4 ≠ [13, 10, 13, 10]) :
    find_end_of_headers buffer = none :=
  List.find?_eq_none.mpr (fun j _ hpj => h j (of_decide_eq_true hpj))

/-- Generalized cap: starting from any under-cap buffer, a terminator-free
stream that pushes the buffer past 16384 bytes makes the loop fail. -/
theorem readHeadersLoop_too_large :
    ∀ (chunks : List (List Nat)) (buffer : List Nat) (total : Nat),
    (∀ c ∈ chunks, c ≠ []) →
    (∀ j, ((buffer ++ chunks.flatten).drop j).take 4 ≠ [13, 10, 13, 10]) →
    16385 ≤ buffer.length + (chunks.flatten).length →
    buffer.length ≤ 16384 →
    readHeadersLoop buffer total chunks =
      .fail (.InvalidRequest (bytes "Request headers too large"))
  | [], buffer, total => by
      intro _ _ hge hle
      simp only [List.flatten_nil, List.length_nil] at hge
      omega
  | chunk :: rest, buffer, total => by
      intro hne hnoterm hge hle
      have hcne : chunk ≠ [] := hne chunk (List.mem_cons_self _ _)
      have hcempty : chunk.isEmpty = false := by
        cases chunk
        · exact absurd rfl hcne
        · rfl
      have hassoc : buffer ++ (chunk :: rest).flatten = (buffer ++ chunk) ++ rest.flatten := by
        simp [List.flatten_cons]
      rw [hassoc] at hnoterm
      have hnowin : ∀ j, ((buffer ++ chunk).drop j).take 4 ≠ [13, 10, 13, 10] := by
        intro j hwin
        apply hnoterm j
        have htake : (buffer ++ chunk) =
            ((buffer ++ chunk) ++ rest.flatten).take (buffer ++ chunk).length :=
          (List.take_left _ _).symm
        rw [htake] at hwin
        exact window_of_take hwin
      simp only [readHeadersLoop, hcempty, Bool.false_eq_true, if_false,
        find_none_of_no_window hnowin]
      by_cases hbig : (buffer ++ chunk).length > 16384
      · rw [if_pos hbig]
      · rw [if_neg hbig]
        apply readHeadersLoop_too_large rest (buffer ++ chunk)
        · exact fun c hc => hne c (List.mem_cons_of_mem _ hc)
        · exact hnoterm
        · have := List.length_append buffer chunk
          simp only [List.flatten_cons, List.length_append] at hge ⊢
          omega
        · omega

/-- Generalized converse: while the buffer plus all remaining input stays
at or below 16384 bytes, the cap error cannot fire. -/
theorem readHeadersLoop_not_too_large :
    ∀ (chunks : List (List Nat)) (buffer : List Nat) (total : Nat),
    buffer.length + (chunks.flatten).length ≤ 16384 →
    readHeadersLoop buffer total chunks ≠
      .fail (.InvalidRequest (bytes "Request headers too large"))
  | [], buffer, total => by
      intro _ heq
      cases heq
  | chunk :: rest, buffer, total => by
      intro hlen heq
      by_cases hc : chunk.isEmpty = true
      · simp only [readHeadersLoop, hc, if_true] at heq
        by_cases ht : total = 0
        · rw [if_pos ht] at heq; cases heq
        · rw [if_neg ht] at heq
          simp only [ReadOutcome.fail.injEq, ProxyError.InvalidRequest.injEq] at heq
          exact absurd heq (by decide)
      · have hc2 : chunk.isEmpty = false := by simpa using hc
        simp only [readHeadersLoop, hc2, Bool.false_eq_true, if_false] at heq
        have hlen2 : (buffer ++ chunk).length + (rest.flatten).length ≤ 16384 := by
          simp only [List.flatten_cons, List.length_append] at hlen ⊢
          omega
        cases hfind : find_end_of_headers (buffer ++ chunk) with
        | some e => rw [hfind] at heq; cases heq
        | none =>
            rw [hfind] at heq
            have hsmall : ¬((buffer ++ chunk).length > 16384) := by
              rw [List.length_append] at hlen2 ⊢
              omega
            rw [if_neg hsmall] at heq
            exact readHeadersLoop_not_too_large rest (buffer ++ chunk) _ hlen2 heq

/-- C6: a nonempty-chunk stream whose bytes never contain CRLF CRLF fails
with `InvalidRequest("Request headers too large")` once 16385 or more
bytes have been buffered, while any stream of at most 16384 total bytes
never produces that error. -/
theorem header_cap (chunks : List (List Nat))
    (hne : ∀ c ∈ chunks, c ≠ [])
    (hnoterm : ∀ j, ((chunks.flatten).drop j).take 4 ≠ [13, 10, 13, 10])
    (hlen : 16385 ≤ (chunks.flatten).length) :
    readHeadersLoop [] 0 chunks =
      .fail (.InvalidRequest (bytes "Request headers too large")) ∧
    ∀ chunks2 : List (List Nat), (chunks2.flatten).length ≤ 16384 →
      readHeadersLoop [] 0 chunks2 ≠
        .fail (.InvalidRequest (bytes "Request headers too large")) := by
  constructor
  · exact readHeadersLoop_too_large chunks [] 0 hne
      (by simpa using hnoterm) (by simpa using hlen) (by simp)
  · intro chunks2 h2
    exact readHeadersLoop_not_too_large chunks2 [] 0 (by simpa using h2)

/-- Witness for C6: 16385 bytes of `a` with no terminator trigger the
header-size error. -/
theorem header_cap_witness :
    readHeadersLoop [] 0 [List.replicate 16385 97] =
      .fail (.InvalidRequest (bytes "Request headers too large")) :=
  (header_cap [List.replicate 16385 97]
    (by
      intro c hc
      rw [List.mem_singleton] at hc
      subst hc
      intro hnil
      have hlen := congrArg List.length hnil
      rw [List.length_replicate] at hlen
      cases hlen)
    (fun j h => by
      have h13 : (13 : Nat) ∈ (([List.replicate 16385 97].flatten).drop j).take 4 := by
        rw [h]
        exact List.mem_cons_self _ _
      have hmem := List.drop_subset _ _ (List.take_subset _ _ h13)
      rw [List.flatten_cons, List.flatten_nil, List.append_nil] at hmem
      have h97 := (List.mem_replicate.mp hmem).2
      cases h97)
    (by
      rw [List.flatten_cons, List.flatten_nil, List.append_nil,
        List.length_replicate])).1

/-! ## Request handling (src/connection.rs, request path)

The handler's side effects are recorded as an event trace: bytes written
to the client stream, origin dial attempts, the hand-off to the
bidirectional pump, and statistics updates. Dial and pump outcomes come
from an environment record. -/

/-- The fields of src/config.rs `Config` the modelled request path
consults (the remaining fields configure plumbing outside the core under
verification). -/
structure Config where
  timeout : Nat
  buffer_size : Nat
  basic_auth : Option BasicAuthConfig
  connect_ports : List Nat
  stat_host : Option (List Nat)
  filter_urls : Bool

/-- Decimal rendering of a number, as Rust `Display` for unsigned
integers inside `format!`. -/
def natBytes (n : Nat) : List Nat := bytes (Nat.repr n)

/-- Rust `str::split(sep)`: all parts, `n` separators yield `n + 1`
parts. -/
def splitAll (sep : Nat) : List Nat → List (List Nat)
  | [] => [[]]
  | c :: rest =>
      if c = sep then [] :: splitAll sep rest
      else
        match splitAll sep rest with
        | [] => [[c]]
        | l :: ls => (c :: l) :: ls

/-- Rust `str::parse::<u16>`: optional leading `+`, at least one decimal
digit, value at most 65535. -/
def parse_u16 (s : List Nat) : Option Nat :=
  let s := match s with | 43 :: rest => rest | _ => s
  match parseDigits s with
  | some v => if v ≤ 65535 then some v else none
  | none => none

/-- src/connection.rs `parse_host_port`: split the URI at every `:`;
one part is a bare host with default port 80, two parts are host and
port, anything else is invalid. -/
def parse_host_port (uri : List Nat) : Except ProxyError (List Nat × Nat) :=
  match splitAll 58 uri with
  | [host] => .ok (host, 80)
  | [host, port_str] =>
      match parse_u16 port_str with
      | some port => .ok (host, port)
      | none => .error (.InvalidRequest (bytes "Invalid port: " ++ port_str))
  | _ => .error (.InvalidRequest (bytes "Invalid host:port format: " ++ uri))

/-- Outcome of `TcpStream::connect` wrapped in the 30-second timeout. -/
inductive DialResult where
  | ok
  | failed (msg : List Nat)
  | timedOut

/-- One observable side effect of the request path. -/
inductive Event where
  | write (data : List Nat)
  | dial (addr : List Nat)
  | pump
  | statsProcessed
  | statsBytes (n : Nat)
  deriving Repr, DecidableEq

/-- Environment supplying the outcomes of the handler's I/O: the dial
result per origin address, the bidirectional pump's result (byte count or
error), the rendered statistics page, and the observable outcome of the
non-CONNECT forwarding path. -/
structure NetEnv where
  dial : List Nat → DialResult
  pump : Except ProxyError Nat
  statsHtml : List Nat
  forward : List Event × Except ProxyError Unit

/-- src/connection.rs `ConnectionHandler::send_error_response`: the
formatted minimal HTML error response (client write failures are not
modelled). -/
def errorResponse (status_code : Nat) (reason : List Nat) : List Nat :=
  bytes "HTTP/1.1 " ++ natBytes status_code ++ bytes " " ++ reason ++
  bytes "\r\nContent-Type: text/html\r\nContent-Length: " ++
  natBytes (reason.length + 32) ++
  bytes "\r\nConnection: close\r\n\r\n<html><body><h1>" ++
  natBytes status_code ++ bytes " " ++ reason ++ bytes "</h1></body></html>"

/-- src/connection.rs `ConnectionHandler::send_proxy_auth_required`: the
hardcoded 407 response; note the realm is the literal `Tinyproxy`. -/
def proxyAuthRequiredResponse : List Nat :=
  bytes "HTTP/1.1 407 Proxy Authentication Required\r\nProxy-Authenticate: Basic realm=\"Tinyproxy\"\r\nContent-Type: text/html\r\nContent-Length: 72\r\nConnection: close\r\n\r\n<html><body><h1>407 Proxy Authentication Required</h1></body></html>"

/-- src/connection.rs `ConnectionHandler::handle_stats_request` response. -/
def statsResponse (stats_html : List Nat) : List Nat :=
  bytes "HTTP/1.1 200 OK\r\nContent-Type: text/html; charset=utf-8\r\nContent-Length: " ++
  natBytes stats_html.length ++
  bytes "\r\nConnection: close\r\nCache-Control: no-cache\r\n\r\n" ++ stats_html

/-- src/connection.rs `ConnectionHandler::handle_connect_request`: parse
the URI as host:port, reject ports outside `config.connect_ports` with a
403, dial the origin, acknowledge with the bare
`HTTP/1.1 200 Connection established` response, then hand both streams to
the bidirectional pump and account the transferred bytes. -/
def handle_connect_request (cfg : Config) (env : NetEnv)
    (request : HttpRequest) : List Event × Except ProxyError Unit :=
  match parse_host_port request.uri with
  | .error e => ([], .error e)
  | .ok (host, port) =>
    if !(cfg.connect_ports.contains port) then
      ([.write (errorResponse 403 (bytes "Port not allowed"))],
       .error (.AccessDenied
         (bytes "CONNECT to port " ++ natBytes port ++ bytes " is not allowed")))
    else
      let target_addr := host ++ bytes ":" ++ natBytes port
      match env.dial target_addr with
      | .timedOut => ([.dial target_addr], .error .Timeout)
      | .failed msg =>
          ([.dial target_addr],
           .error (.Upstream (bytes "Failed to connect to " ++ target_addr ++
             bytes ": " ++ msg)))
      | .ok =>
          let response := bytes "HTTP/1.1 200 Connection established\r\n\r\n"
          match env.pump with
          | .ok bytes_transferred =>
              ([.dial target_addr, .write response, .pump,
                .statsBytes bytes_transferred], .ok ())
          | .error e =>
              ([.dial target_addr, .write response, .pump], .error e)

/-- src/connection.rs `ConnectionHandler::handle_http_request`: the
non-CONNECT forwarding path (URL resolution, origin dial, request
reconstruction, pump). No claim concerns its internals, so its observable
outcome is taken from the environment. -/
def handle_http_request (env : NetEnv) : List Event × Except ProxyError Unit :=
  env.forward

/-- Method dispatch at the end of src/connection.rs
`ConnectionHandler::handle_request`. -/
def method_dispatch (cfg : Config) (env : NetEnv) (request : HttpRequest) :
    List Event × Except ProxyError Unit :=
  if request.method = bytes "CONNECT" then
    handle_connect_request cfg env request
  else if request.method ∈ [bytes "GET", bytes "POST", bytes "PUT",
      bytes "DELETE", bytes "HEAD", bytes "OPTIONS", bytes "PATCH"] then
    handle_http_request env
  else
    ([.write (errorResponse 405 (bytes "Method Not Allowed"))],
     .error (.InvalidRequest (bytes "Unsupported method: " ++ request.method)))

/-- Filter step of `handle_request` followed by method dispatch. -/
def filter_and_dispatch (cfg : Config) (filter : Filter)
    (urlHost : UrlHostOracle) (env : NetEnv) (request : HttpRequest) :
    List Event × Except ProxyError Unit :=
  if cfg.filter_urls && !(Filter.is_allowed urlHost filter request.uri) then
    ([.write (errorResponse 403 (bytes "Forbidden by filter"))],
     .error (.FilterBlocked request.uri))
  else method_dispatch cfg env request

/-- Statistics-host step of `handle_request` followed by the filter step. -/
def stats_or_dispatch (cfg : Config) (filter : Filter)
    (urlHost : UrlHostOracle) (env : NetEnv) (request : HttpRequest) :
    List Event × Except ProxyError Unit :=
  match cfg.stat_host with
  | some stat_host =>
      let host_header := (headersGet request.headers (bytes "host")).getD request.uri
      if containsSub host_header stat_host then
        ([.write (statsResponse env.statsHtml)], .ok ())
      else filter_and_dispatch cfg filter urlHost env request
  | none => filter_and_dispatch cfg filter urlHost env request

/-- src/connection.rs `ConnectionHandler::handle_request`: bump the
request counter, run authentication when configured (407 + hard failure
on a false result, error propagation on a hard authentication error),
then the statistics-host check, the filter, and method dispatch. -/
def handle_request (cfg : Config) (filter : Filter) (urlHost : UrlHostOracle)
    (env : NetEnv) (request : HttpRequest) :
    List Event × Except ProxyError Unit :=
  let pre := [Event.statsProcessed]
  match cfg.basic_auth with
  | some _ =>
      match authenticate cfg.basic_auth request with
      | .error e => (pre, .error e)
      | .ok true =>
          let r := stats_or_dispatch cfg filter urlHost env request
          (pre ++ r.1, r.2)
      | .ok false =>
          (pre ++ [.write proxyAuthRequiredResponse], .error .AuthenticationFailed)
  | none =>
      let r := stats_or_dispatch cfg filter urlHost env request
      (pre ++ r.1, r.2)

/-- C2: for a CONNECT request whose URI parses as host:port, a port
outside `config.connect_ports` yields exactly one client write — the 403
response — and an error, with no origin dial; with an allowed port and a
successful dial, the first client write is exactly
`HTTP/1.1 200 Connection established\r\n\r\n` (no other headers),
immediately followed by the hand-off of both streams to the bidirectional
pump, with no further client writes. -/
theorem connect_port_gate (cfg : Config) (env : NetEnv) (request : HttpRequest)
    (host : List Nat) (port : Nat)
    (hparse : parse_host_port request.uri = .ok (host, port)) :
    (cfg.connect_ports.contains port = false →
      handle_connect_request cfg env request =
        ([.write (errorResponse 403 (bytes "Port not allowed"))],
         .error (.AccessDenied (bytes "CONNECT to port " ++ natBytes port ++
           bytes " is not allowed"))) ∧
      ∀ a, Event.dial a ∉ (handle_connect_request cfg env request).1) ∧
    (cfg.connect_ports.contains port = true →
      env.dial (host ++ bytes ":" ++ natBytes port) = .ok →
      ∃ rest, (handle_connect_request cfg env request).1 =
        .dial (host ++ bytes ":" ++ natBytes port) ::
        .write (bytes "HTTP/1.1 200 Connection established\r\n\r\n") ::
        .pump :: rest ∧
        ∀ d, Event.write d ∉ rest) := by
  constructor
  · intro hnp
    have heval : handle_connect_request cfg env request =
        ([.write (errorResponse 403 (bytes "Port not allowed"))],
         .error (.AccessDenied (bytes "CONNECT to port " ++ natBytes port ++
           bytes " is not allowed"))) := by
      simp only [handle_connect_request, hparse, hnp, Bool.not_false, if_true]
    refine ⟨heval, ?_⟩
    intro a ha
    rw [heval] at ha
    simp at ha
  · intro hp hdial
    simp only [handle_connect_request, hparse, hp, Bool.not_true,
      Bool.false_eq_true, if_false, hdial]
    cases hpump : env.pump with
    | ok n =>
        refine ⟨[.statsBytes n], rfl, ?_⟩
        intro d hd
        simp at hd
    | error e =>
        refine ⟨[], rfl, ?_⟩
        intro d hd
        simp at hd

/-- Witness for C2: CONNECT to `example.com:443` with port 443 allowed
and a successful dial acknowledges with the bare 200 line and pumps. -/
theorem connect_port_gate_witness :
    ∃ rest, (handle_connect_request ⟨600, 8192, none, [443], none, false⟩
        ⟨fun _ => .ok, .ok 5, [], ([], .ok ())⟩
        ⟨bytes "CONNECT", bytes "example.com:443", bytes "1.1", []⟩).1 =
      .dial (bytes "example.com" ++ bytes ":" ++ natBytes 443) ::
      .write (bytes "HTTP/1.1 200 Connection established\r\n\r\n") ::
      .pump :: rest ∧
      ∀ d, Event.write d ∉ rest :=
  (connect_port_gate ⟨600, 8192, none, [443], none, false⟩
      ⟨fun _ => .ok, .ok 5, [], ([], .ok ())⟩
      ⟨bytes "CONNECT", bytes "example.com:443", bytes "1.1", []⟩
      (bytes "example.com") 443 (by rfl)).2 (by rfl) (by rfl)

set_option maxRecDepth 16384 in
/-- C4 as written is FALSE on the code: with a configured realm of
`Test`, the 407 response still carries `realm="Tinyproxy"` —
`send_proxy_auth_required` hardcodes the realm and never reads the
configured one (nor calls `Authenticator::get_realm`). -/
theorem auth_407_realm_counterexample :
    handle_request
      ⟨600, 8192, some ⟨bytes "user", bytes "pass", bytes "Test"⟩,
        [443, 563], none, false⟩
      ⟨false, [], false, false⟩ (fun _ => none)
      ⟨fun _ => .ok, .ok 0, [], ([], .ok ())⟩
      ⟨bytes "GET", bytes "http://x/", bytes "1.1", []⟩ =
      ([.statsProcessed, .write proxyAuthRequiredResponse],
       .error .AuthenticationFailed) ∧
    containsSub proxyAuthRequiredResponse (bytes "realm=\"Tinyproxy\"") = true ∧
    containsSub proxyAuthRequiredResponse (bytes "realm=\"Test\"") = false := by
  refine ⟨rfl, by decide, by decide⟩

set_option maxRecDepth 16384 in
/-- C4 (amended): when Basic auth is configured and a request fails
authentication (a false result, as opposed to a hard error), the handler
writes the 407 Proxy Authentication Required response whose
`Proxy-Authenticate` header carries the HARDCODED realm `Tinyproxy`
regardless of the configured realm, and returns the
`AuthenticationFailed` error. -/
theorem auth_407_hardcoded_realm (cfg : Config) (filter : Filter)
    (urlHost : UrlHostOracle) (env : NetEnv) (request : HttpRequest)
    (ac : BasicAuthConfig) (hcfg : cfg.basic_auth = some ac)
    (hfail : authenticate cfg.basic_auth request = .ok false) :
    handle_request cfg filter urlHost env request =
      ([.statsProcessed, .write proxyAuthRequiredResponse],
       .error .AuthenticationFailed) ∧
    containsSub proxyAuthRequiredResponse
      (bytes "Proxy-Authenticate: Basic realm=\"Tinyproxy\"") = true := by
  rw [hcfg] at hfail
  constructor
  · simp only [handle_request, hcfg, hfail]
    rfl
  · decide

set_option maxRecDepth 16384 in
/-- Witness for the amended C4 at a concrete configuration and request
missing the proxy-authorization header. -/
theorem auth_407_hardcoded_realm_witness :
    handle_request
      ⟨600, 8192, some ⟨bytes "alice", bytes "secret", bytes "Tinyproxy"⟩,
        [443, 563], none, false⟩
      ⟨false, [], false, false⟩ (fun _ => none)
      ⟨fun _ => .ok, .ok 0, [], ([], .ok ())⟩
      ⟨bytes "GET", bytes "http://x/", bytes "1.1", []⟩ =
      ([.statsProcessed, .write proxyAuthRequiredResponse],
       .error .AuthenticationFailed) ∧
    containsSub proxyAuthRequiredResponse
      (bytes "Proxy-Authenticate: Basic realm=\"Tinyproxy\"") = true :=
  auth_407_hardcoded_realm _ _ _ _ _
    ⟨bytes "alice", bytes "secret", bytes "Tinyproxy"⟩ rfl rfl

end Tinyproxy
